import Mathlib

set_option maxRecDepth 8000

/-!
Verification of the Merkle-tree key-derivation module (`merkletree` package):
`keyEthAddr`, `defaultCapIn`, `KeyEthAddrBalance`, `KeyEthAddrNonce`,
`KeyContractCode`, `KeyContractStorage`, together with the field-element
encoder (`scalar2fea`), the hex-constant parser (`stringToh4`) and the
digest serializer (`h4ToFilledByteSlice`).

Machine integers (`uint64`, bytes, `big.Int`) are embedded as `Nat`/`Int`.
The Poseidon hash is an external collaborator and is embedded as an opaque
oracle parameter; derivations are written generically over a monad `m` so
that the very same transcription can be run purely (`Id`) or with a
call-recording state (`StateM`), which is how call-count properties are
stated.
-/

/-- Error raised by the field-element encoder: the input integer is negative
or needs more bits than its declared width. -/
inductive EncodingError where
  | negative
  | overwidth
deriving DecidableEq

/-- Errors a derivation can return: an encoding error, a format error from
hex-constant parsing, or an error propagated from the hash oracle (the
oracle's errors are represented by an opaque `Nat` code). -/
inductive DeriveError where
  | encoding (e : EncodingError)
  | format
  | hash (e : Nat)
deriving DecidableEq

/-- Big-endian interpretation of a byte slice as an unsigned integer,
as `big.Int.SetBytes` does. -/
def beBytesToNat (bs : List Nat) : Nat :=
  bs.foldl (fun acc b => acc * 256 + b) 0

/-- The big-endian byte representation of `n`, padded/truncated to `len`
bytes (most significant byte first). -/
def natToBEBytes : Nat → Nat → List Nat
  | 0, _ => []
  | len + 1, n => natToBEBytes len (n / 256) ++ [n % 256]

/-- A 4-byte group interpreted as a big-endian unsigned 32-bit value. -/
def beBytes4ToWord (l : List Nat) : Nat :=
  l.foldl (fun acc b => acc * 256 + b) 0

/-- Split a byte list into consecutive 4-byte groups. -/
def group4 : List Nat → List (List Nat)
  | a :: b :: c :: d :: rest => [a, b, c, d] :: group4 rest
  | _ => []

/-- Modelled from the spec: `FieldEncoder.encode(n, widthBits)` (the Go
`scalar2fea` body is not under `src/`; only its call sites are). Splits the
big-endian byte representation of `n` into 4-byte groups, each read as a
big-endian unsigned 32-bit value, placed least-significant group first;
unused high slots are zero. Fails with `EncodingError` if `n` is negative
or requires more bits than `widthBits`. -/
def scalar2fea (n : Int) (widthBits : Nat) : Except EncodingError (List Nat) :=
  if n < 0 then .error .negative
  else if 2 ^ widthBits ≤ n.toNat then .error .overwidth
  else
    let words := ((group4 (natToBEBytes (widthBits / 8) n.toNat)).map beBytes4ToWord).reverse
    .ok (words ++ List.replicate (8 - words.length) 0)

/-- Modelled from the spec: `DigestCodec.digestToKey` (the Go
`h4ToFilledByteSlice` body is not under `src/`). Concatenates the 4 digest
words, each written as 8 big-endian bytes, into the 32-byte key. -/
def h4ToFilledByteSlice (d : List Nat) : List Nat :=
  ((List.range 4).map (fun i => natToBEBytes 8 (d.getD i 0))).flatten

/-- Decidable equality of `Except` values, with decidable components. -/
instance {ε α : Type} [DecidableEq ε] [DecidableEq α] : DecidableEq (Except ε α) := fun a b =>
  match a, b with
  | .ok x, .ok y => if h : x = y then .isTrue (by rw [h]) else .isFalse (by simp [h])
  | .error x, .error y => if h : x = y then .isTrue (by rw [h]) else .isFalse (by simp [h])
  | .ok _, .error _ => .isFalse (by simp)
  | .error _, .ok _ => .isFalse (by simp)

/-- Value of a hex digit character, if it is one. -/
def hexVal (c : Char) : Option Nat :=
  if '0' ≤ c ∧ c ≤ '9' then some (c.toNat - '0'.toNat)
  else if 'a' ≤ c ∧ c ≤ 'f' then some (c.toNat - 'a'.toNat + 10)
  else if 'A' ≤ c ∧ c ≤ 'F' then some (c.toNat - 'A'.toNat + 10)
  else none

/-- Big-endian value of a list of hex digit characters; `none` if any
character is not a hex digit. -/
def hexCharsToNat (l : List Char) : Option Nat :=
  l.foldl (fun acc c => acc.bind (fun a => (hexVal c).map (fun v => a * 16 + v))) (some 0)

/-- The fixed hex seed of the default capacity (source constant
`HashPoseidonAllZeroes`). -/
def HashPoseidonAllZeroes : String :=
  "0xc71603f33a1144ca7953db0ab48808f4c4055e3364a246c33c18a9786cb0b359"

/-- Modelled from the spec: `DigestCodec.hexToDigest` (the Go `stringToh4`
body is not under `src/`). Parses a fixed-length hex literal (optional `0x`)
into 4 big-endian 64-bit words; fails with a format error on wrong length
or non-hex characters. -/
def stringToh4 (str : String) : Except DeriveError (List Nat) :=
  let cs0 := str.toList
  let cs := if cs0.take 2 = ['0', 'x'] then cs0.drop 2 else cs0
  if cs.length = 64 then
    match hexCharsToNat (cs.take 16), hexCharsToNat ((cs.drop 16).take 16),
          hexCharsToNat ((cs.drop 32).take 16), hexCharsToNat (cs.drop 48) with
    | some w0, some w1, some w2, some w3 => .ok [w0, w1, w2, w3]
    | _, _, _, _ => .error .format
  else .error .format

/-- Modelled from the spec: the leaf-type tag of balance leaves (the Go
`leafType` constants are not under `src/`; the spec fixes 0=balance,
1=nonce, 2=code, 3=storage). -/
def leafTypeBalance : Nat := 0

/-- Modelled from the spec: the leaf-type tag of nonce leaves. -/
def leafTypeNonce : Nat := 1

/-- Modelled from the spec: the leaf-type tag of code leaves. -/
def leafTypeCode : Nat := 2

/-- Modelled from the spec: the leaf-type tag of storage leaves. -/
def leafTypeStorage : Nat := 3

/-- The hash-oracle capability: `poseidon.Hash(input[8], capacity[4])`
returning a 4-word digest or an error, in an ambient monad `m` (used
purely via `Id`, or with call recording via `StateM`). -/
abbrev HashF (m : Type → Type) := List Nat → List Nat → m (Except Nat (List Nat))

/-- The hex-parsing capability (`stringToh4` as called by `defaultCapIn`),
in an ambient monad `m` so its invocations can be counted. -/
abbrev StrF (m : Type → Type) := String → m (Except DeriveError (List Nat))

/-- `keyEthAddr(ethAddr, leafType, key1Capacity)`: the common code for all
keys related to ethereum addresses. Encodes the address (width 160 per
spec §4.3), builds `key1 = [addr[0..4], 0, leafType, 0]` and hashes it with
the given capacity. -/
def keyEthAddr {m : Type → Type} [Monad m] (hashF : HashF m)
    (ethAddr : List Nat) (leafType : Nat) (key1Capacity : List Nat) :
    m (Except DeriveError (List Nat)) := do
  let ethAddrBI : Int := (beBytesToNat ethAddr : Nat)
  match scalar2fea ethAddrBI 160 with
  | .error e => pure (.error (.encoding e))
  | .ok ethAddrArr =>
    let key1 : List Nat :=
      [ethAddrArr.getD 0 0, ethAddrArr.getD 1 0, ethAddrArr.getD 2 0,
       ethAddrArr.getD 3 0, ethAddrArr.getD 4 0, 0, leafType, 0]
    match ← hashF key1 key1Capacity with
    | .error err => pure (.error (.hash err))
    | .ok result => pure (.ok (h4ToFilledByteSlice result))

/-- `defaultCapIn()`: parses the fixed hex seed into the 4-element default
capacity vector. -/
def defaultCapIn {m : Type → Type} [Monad m] (strF : StrF m) :
    m (Except DeriveError (List Nat)) := do
  match ← strF HashPoseidonAllZeroes with
  | .error e => pure (.error e)
  | .ok capIn => pure (.ok [capIn.getD 0 0, capIn.getD 1 0, capIn.getD 2 0, capIn.getD 3 0])

/-- `KeyEthAddrBalance(ethAddr)`: key of the balance leaf. -/
def KeyEthAddrBalance {m : Type → Type} [Monad m] (strF : StrF m) (hashF : HashF m)
    (ethAddr : List Nat) : m (Except DeriveError (List Nat)) := do
  match ← defaultCapIn strF with
  | .error e => pure (.error e)
  | .ok capIn => keyEthAddr hashF ethAddr leafTypeBalance capIn

/-- `KeyEthAddrNonce(ethAddr)`: key of the nonce leaf. -/
def KeyEthAddrNonce {m : Type → Type} [Monad m] (strF : StrF m) (hashF : HashF m)
    (ethAddr : List Nat) : m (Except DeriveError (List Nat)) := do
  match ← defaultCapIn strF with
  | .error e => pure (.error e)
  | .ok capIn => keyEthAddr hashF ethAddr leafTypeNonce capIn

/-- `KeyContractCode(ethAddr)`: key of the contract-code leaf. -/
def KeyContractCode {m : Type → Type} [Monad m] (strF : StrF m) (hashF : HashF m)
    (ethAddr : List Nat) : m (Except DeriveError (List Nat)) := do
  match ← defaultCapIn strF with
  | .error e => pure (.error e)
  | .ok capIn => keyEthAddr hashF ethAddr leafTypeCode capIn

/-- `KeyContractStorage(ethAddr, storagePos)`: key of the contract storage
leaf. Encodes the position (width 256 per spec §4.3), hashes it with the
all-zero capacity to get `hk0`, then derives the address key with `hk0` as
capacity. -/
def KeyContractStorage {m : Type → Type} [Monad m] (hashF : HashF m)
    (ethAddr : List Nat) (storagePos : List Nat) :
    m (Except DeriveError (List Nat)) := do
  let storageBI : Int := (beBytesToNat storagePos : Nat)
  match scalar2fea storageBI 256 with
  | .error e => pure (.error (.encoding e))
  | .ok storageArr =>
    match ← hashF
        [storageArr.getD 0 0, storageArr.getD 1 0, storageArr.getD 2 0,
         storageArr.getD 3 0, storageArr.getD 4 0, storageArr.getD 5 0,
         storageArr.getD 6 0, storageArr.getD 7 0]
        [0, 0, 0, 0] with
    | .error err => pure (.error (.hash err))
    | .ok hk0 => keyEthAddr hashF ethAddr leafTypeStorage hk0

/-- A pure hash oracle lifted into `Id`. -/
def pureHash (f : List Nat → List Nat → Except Nat (List Nat)) : HashF Id :=
  fun i c => pure (f i c)

/-- The pure hex parser lifted into `Id`. -/
def pureStr : StrF Id := fun s => pure (stringToh4 s)

/-- Pure run of `keyEthAddr` with a pure oracle. -/
def keyEthAddrRun (f : List Nat → List Nat → Except Nat (List Nat))
    (ethAddr : List Nat) (leafType : Nat) (key1Capacity : List Nat) :
    Except DeriveError (List Nat) :=
  keyEthAddr (m := Id) (pureHash f) ethAddr leafType key1Capacity

/-- Pure run of `KeyEthAddrBalance`. -/
def KeyEthAddrBalanceRun (f : List Nat → List Nat → Except Nat (List Nat))
    (ethAddr : List Nat) : Except DeriveError (List Nat) :=
  KeyEthAddrBalance (m := Id) pureStr (pureHash f) ethAddr

/-- Pure run of `KeyEthAddrNonce`. -/
def KeyEthAddrNonceRun (f : List Nat → List Nat → Except Nat (List Nat))
    (ethAddr : List Nat) : Except DeriveError (List Nat) :=
  KeyEthAddrNonce (m := Id) pureStr (pureHash f) ethAddr

/-- Pure run of `KeyContractCode`. -/
def KeyContractCodeRun (f : List Nat → List Nat → Except Nat (List Nat))
    (ethAddr : List Nat) : Except DeriveError (List Nat) :=
  KeyContractCode (m := Id) pureStr (pureHash f) ethAddr

/-- Pure run of `KeyContractStorage`. -/
def KeyContractStorageRun (f : List Nat → List Nat → Except Nat (List Nat))
    (ethAddr : List Nat) (storagePos : List Nat) : Except DeriveError (List Nat) :=
  KeyContractStorage (m := Id) (pureHash f) ethAddr storagePos

/-- A trace of hash-oracle calls: the list of (input, capacity) argument
pairs, in call order. -/
abbrev Trace := List (List Nat × List Nat)

/-- A hash oracle that records every call it receives while answering
according to the pure oracle `f`. -/
def recHash (f : List Nat → List Nat → Except Nat (List Nat)) : HashF (StateM Trace) :=
  fun i c s => (f i c, s ++ [(i, c)])

/-- The pure hex parser lifted into the trace-recording monad (it is not a
hash-oracle call, so it records nothing). -/
def traceStr : StrF (StateM Trace) := fun str s => (stringToh4 str, s)

/-- The hex parser instrumented to count its own invocations. -/
def countStr : StrF (StateM Nat) := fun str n => (stringToh4 str, n + 1)

/-- A hash oracle in the parser-counting monad that counts nothing and
answers according to the pure oracle `f`. -/
def countHash (f : List Nat → List Nat → Except Nat (List Nat)) : HashF (StateM Nat) :=
  fun i c n => (f i c, n)

/-- The default capacity vector: the value `defaultCapIn` computes from the
fixed hex seed. -/
def defaultCapVal : List Nat :=
  match stringToh4 HashPoseidonAllZeroes with
  | .ok l => [l.getD 0 0, l.getD 1 0, l.getD 2 0, l.getD 3 0]
  | .error _ => []

/-- Pure run of `defaultCapIn`. -/
def defaultCapInRun : Except DeriveError (List Nat) :=
  defaultCapIn (m := Id) pureStr

/-- A trivial stub oracle answering every query with the all-zero digest. -/
def zeroOracle : List Nat → List Nat → Except Nat (List Nat) :=
  fun _ _ => .ok [0, 0, 0, 0]

/-- A stub oracle whose digest exposes slot 6 of the input (the leaf-type
tag slot) and slot 0 of the capacity, so digests of calls differing there
are distinct. -/
def tagOracle : List Nat → List Nat → Except Nat (List Nat) :=
  fun i c => .ok [i.getD 6 0, c.getD 0 0, 0, 0]

/-- A stub oracle whose digest exposes slot 0 of the input and slot 0 of
the capacity. -/
def slotOracle : List Nat → List Nat → Except Nat (List Nat) :=
  fun i c => .ok [i.getD 0 0, c.getD 0 0, 0, 0]

lemma natToBEBytes_succ (len n : Nat) :
    natToBEBytes (len + 1) n = natToBEBytes len (n / 256) ++ [n % 256] := rfl

lemma natToBEBytes_length (len n : Nat) : (natToBEBytes len n).length = len := by
  induction len generalizing n with
  | zero => rfl
  | succ k ih => simp [natToBEBytes_succ, ih]

lemma foldl_byte_lt : ∀ (bs : List Nat) (acc : Nat), (∀ b ∈ bs, b < 256) →
    List.foldl (fun a b => a * 256 + b) acc bs < (acc + 1) * 256 ^ bs.length := by
  intro bs
  induction bs with
  | nil => intro acc _; simpa using Nat.lt_succ_self acc
  | cons b bs ih =>
    intro acc h
    have hb : b < 256 := h b (by simp)
    have hrec := ih (acc * 256 + b) (fun x hx => h x (by simp [hx]))
    have h1 : acc * 256 + b + 1 ≤ (acc + 1) * 256 := by omega
    calc List.foldl (fun a b => a * 256 + b) acc (b :: bs)
        = List.foldl (fun a b => a * 256 + b) (acc * 256 + b) bs := rfl
      _ < (acc * 256 + b + 1) * 256 ^ bs.length := hrec
      _ ≤ ((acc + 1) * 256) * 256 ^ bs.length := Nat.mul_le_mul_right _ h1
      _ = (acc + 1) * 256 ^ (b :: bs).length := by simp [List.length_cons, pow_succ]; ring

lemma beBytesToNat_lt (bs : List Nat) (h : ∀ b ∈ bs, b < 256) :
    beBytesToNat bs < 256 ^ bs.length := by
  simpa [beBytesToNat] using foldl_byte_lt bs 0 h

lemma beBytesToNat_append_singleton (xs : List Nat) (b : Nat) :
    beBytesToNat (xs ++ [b]) = beBytesToNat xs * 256 + b := by
  simp [beBytesToNat, List.foldl_append]

lemma beBytesToNat_natToBEBytes (len n : Nat) :
    beBytesToNat (natToBEBytes len n) = n % 256 ^ len := by
  induction len generalizing n with
  | zero => simp [natToBEBytes, beBytesToNat]; omega
  | succ k ih =>
    rw [natToBEBytes_succ, beBytesToNat_append_singleton, ih]
    have h : (256 : Nat) ^ (k + 1) = 256 * 256 ^ k := by ring
    rw [h, Nat.mod_mul]
    ring

lemma natToBEBytes_succ4 (len n : Nat) :
    natToBEBytes (len + 4) n = natToBEBytes len (n / 4294967296) ++
      [n / 16777216 % 256, n / 65536 % 256, n / 256 % 256, n % 256] := by
  rw [show len + 4 = (len + 3) + 1 from rfl, natToBEBytes_succ]
  rw [show len + 3 = (len + 2) + 1 from rfl, natToBEBytes_succ]
  rw [show len + 2 = (len + 1) + 1 from rfl, natToBEBytes_succ]
  rw [natToBEBytes_succ]
  simp [Nat.div_div_eq_div_mul, List.append_assoc]

theorem group4_append : ∀ (xs ys : List Nat), xs.length % 4 = 0 →
    group4 (xs ++ ys) = group4 xs ++ group4 ys
  | [], ys, _ => by simp [group4]
  | [_], _, h => by simp at h
  | [_, _], _, h => by simp at h
  | [_, _, _], _, h => by simp at h
  | a :: b :: c :: d :: rest, ys, h => by
    have hr : rest.length % 4 = 0 := by simp [List.length_cons] at h ⊢; omega
    simp only [List.cons_append, group4, List.append_eq, group4_append rest ys hr]

lemma beBytes4ToWord_low (n : Nat) :
    beBytes4ToWord [n / 16777216 % 256, n / 65536 % 256, n / 256 % 256, n % 256]
      = n % 4294967296 := by
  simp [beBytes4ToWord, List.foldl]
  omega

lemma group_words : ∀ (g n : Nat),
    ((group4 (natToBEBytes (4 * g) n)).map beBytes4ToWord).reverse
      = (List.range g).map (fun i => n / 2 ^ (32 * i) % 2 ^ 32) := by
  intro g
  induction g with
  | zero => intro n; simp [natToBEBytes, group4]
  | succ g ih =>
    intro n
    rw [show 4 * (g + 1) = 4 * g + 4 from by ring, natToBEBytes_succ4]
    rw [group4_append _ _ (by simp [natToBEBytes_length])]
    rw [show group4 [n / 16777216 % 256, n / 65536 % 256, n / 256 % 256, n % 256]
        = [[n / 16777216 % 256, n / 65536 % 256, n / 256 % 256, n % 256]] from rfl]
    rw [List.map_append, List.reverse_append]
    rw [ih (n / 4294967296)]
    rw [List.range_succ_eq_map]
    simp only [List.map_cons, List.map_map, List.map_nil, List.reverse_cons,
      List.reverse_nil, List.nil_append, List.singleton_append]
    have hhead : beBytes4ToWord [n / 16777216 % 256, n / 65536 % 256, n / 256 % 256, n % 256]
        = n / 2 ^ (32 * 0) % 2 ^ 32 := by
      rw [beBytes4ToWord_low]; norm_num
    have htail : List.map (fun i => n / 4294967296 / 2 ^ (32 * i) % 2 ^ 32) (List.range g)
        = List.map ((fun i => n / 2 ^ (32 * i) % 2 ^ 32) ∘ Nat.succ) (List.range g) := by
      apply List.map_congr_left
      intro i _
      simp only [Function.comp]
      have hd : (4294967296 : Nat) * 2 ^ (32 * i) = 2 ^ (32 * Nat.succ i) := by
        have he : 32 * Nat.succ i = 32 * i + 32 := by omega
        rw [he, pow_add]
        norm_num [mul_comm]
      rw [Nat.div_div_eq_div_mul, hd]
    rw [hhead, htail]

lemma scalar2fea_ok (n : Int) (g : Nat) (h0 : 0 ≤ n) (hlt : n.toNat < 2 ^ (32 * g)) :
    scalar2fea n (32 * g) =
      .ok ((List.range g).map (fun i => n.toNat / 2 ^ (32 * i) % 2 ^ 32) ++
        List.replicate (8 - g) 0) := by
  have hneg : ¬ n < 0 := by omega
  have hov : ¬ 2 ^ (32 * g) ≤ n.toNat := by omega
  have hdiv : 32 * g / 8 = 4 * g := by omega
  simp only [scalar2fea, if_neg hneg, if_neg hov, hdiv, group_words]
  simp

lemma scalar2fea_nat_ok (k g : Nat) (hlt : k < 2 ^ (32 * g)) :
    scalar2fea (k : Int) (32 * g) =
      .ok ((List.range g).map (fun i => k / 2 ^ (32 * i) % 2 ^ 32) ++
        List.replicate (8 - g) 0) := by
  have h := scalar2fea_ok (k : Int) g (by positivity) (by simpa using hlt)
  simpa using h

lemma range_map_getD (g i : Nat) (f : Nat → Nat) (h : i < g) :
    ((List.range g).map f).getD i 0 = f i := by
  simp [List.getD_eq_getElem?_getD, List.getElem?_map, List.getElem?_range h]

lemma replicate_getD (k j : Nat) : (List.replicate k (0 : Nat)).getD j 0 = 0 := by
  simp only [List.getD_eq_getElem?_getD, List.getElem?_replicate]
  split <;> rfl

lemma scalar2fea_nat_getD (k g : Nat) (hg : g ≤ 8) (hlt : k < 2 ^ (32 * g))
    (l : List Nat) (hl : scalar2fea (k : Int) (32 * g) = .ok l) (i : Nat) (hi : i < 8) :
    l.getD i 0 = k / 2 ^ (32 * i) % 2 ^ 32 := by
  rw [scalar2fea_nat_ok k g hlt] at hl
  cases hl
  by_cases hig : i < g
  · rw [List.getD_append _ _ _ _ (by simpa using hig), range_map_getD _ _ _ hig]
  · push_neg at hig
    rw [List.getD_append_right _ _ _ _ (by simpa using hig), replicate_getD]
    have hle : 2 ^ (32 * g) ≤ 2 ^ (32 * i) :=
      Nat.pow_le_pow_right (by norm_num) (by omega)
    rw [Nat.div_eq_of_lt (lt_of_lt_of_le hlt hle)]
    rfl

lemma defaultCapInRun_eq : defaultCapInRun = .ok defaultCapVal := by decide

lemma keyEthAddrRun_eq (f : List Nat → List Nat → Except Nat (List Nat))
    (a : List Nat) (t : Nat) (c : List Nat) :
    keyEthAddrRun f a t c =
      match scalar2fea (beBytesToNat a : Int) 160 with
      | .error e => .error (.encoding e)
      | .ok arr =>
        match f [arr.getD 0 0, arr.getD 1 0, arr.getD 2 0, arr.getD 3 0,
            arr.getD 4 0, 0, t, 0] c with
        | .error err => .error (.hash err)
        | .ok result => .ok (h4ToFilledByteSlice result) := by
  cases hs : scalar2fea (beBytesToNat a : Int) 160 with
  | error e => simp [keyEthAddrRun, keyEthAddr, pureHash, hs]
  | ok arr =>
    simp only [keyEthAddrRun, keyEthAddr, pureHash, hs]
    cases hf : f [arr.getD 0 0, arr.getD 1 0, arr.getD 2 0, arr.getD 3 0,
        arr.getD 4 0, 0, t, 0] c <;> simp [hf]

lemma KeyEthAddrBalanceRun_eq (f : List Nat → List Nat → Except Nat (List Nat))
    (a : List Nat) :
    KeyEthAddrBalanceRun f a = keyEthAddrRun f a leafTypeBalance defaultCapVal := rfl

lemma KeyEthAddrNonceRun_eq (f : List Nat → List Nat → Except Nat (List Nat))
    (a : List Nat) :
    KeyEthAddrNonceRun f a = keyEthAddrRun f a leafTypeNonce defaultCapVal := rfl

lemma KeyContractCodeRun_eq (f : List Nat → List Nat → Except Nat (List Nat))
    (a : List Nat) :
    KeyContractCodeRun f a = keyEthAddrRun f a leafTypeCode defaultCapVal := rfl

lemma KeyContractStorageRun_eq (f : List Nat → List Nat → Except Nat (List Nat))
    (a p : List Nat) :
    KeyContractStorageRun f a p =
      match scalar2fea (beBytesToNat p : Int) 256 with
      | .error e => .error (.encoding e)
      | .ok sArr =>
        match f [sArr.getD 0 0, sArr.getD 1 0, sArr.getD 2 0, sArr.getD 3 0,
            sArr.getD 4 0, sArr.getD 5 0, sArr.getD 6 0, sArr.getD 7 0] [0, 0, 0, 0] with
        | .error err => .error (.hash err)
        | .ok hk0 => keyEthAddrRun f a leafTypeStorage hk0 := by
  cases hs : scalar2fea (beBytesToNat p : Int) 256 with
  | error e => simp [KeyContractStorageRun, KeyContractStorage, pureHash, hs]
  | ok sArr =>
    simp only [KeyContractStorageRun, KeyContractStorage, pureHash, hs]
    cases hf : f [sArr.getD 0 0, sArr.getD 1 0, sArr.getD 2 0, sArr.getD 3 0,
        sArr.getD 4 0, sArr.getD 5 0, sArr.getD 6 0, sArr.getD 7 0] [0, 0, 0, 0] <;>
      simp [hf, keyEthAddrRun, pureHash]

lemma fea_inj (p q : Nat) (hp : p < 2 ^ 256) (hq : q < 2 ^ 256)
    (h : ∀ i, i < 8 → p / 2 ^ (32 * i) % 2 ^ 32 = q / 2 ^ (32 * i) % 2 ^ 32) : p = q := by
  have h0 := h 0 (by norm_num)
  have h1 := h 1 (by norm_num)
  have h2 := h 2 (by norm_num)
  have h3 := h 3 (by norm_num)
  have h4 := h 4 (by norm_num)
  have h5 := h 5 (by norm_num)
  have h6 := h 6 (by norm_num)
  have h7 := h 7 (by norm_num)
  norm_num at h0 h1 h2 h3 h4 h5 h6 h7 hp hq
  omega

lemma stringToh4_seed : stringToh4 HashPoseidonAllZeroes =
    .ok [0xc71603f33a1144ca, 0x7953db0ab48808f4, 0xc4055e3364a246c3, 0x3c18a9786cb0b359] := by
  decide

lemma defaultCapVal_eq : defaultCapVal =
    [0xc71603f33a1144ca, 0x7953db0ab48808f4, 0xc4055e3364a246c3, 0x3c18a9786cb0b359] := by
  decide

lemma list_len4 (l : List Nat) (h : l.length = 4) : ∃ a b c d, l = [a, b, c, d] := by
  rcases l with _ | ⟨a, _ | ⟨b, _ | ⟨c, _ | ⟨d, _ | ⟨e, t⟩⟩⟩⟩⟩ <;> simp at h
  exact ⟨a, b, c, d, rfl⟩

lemma beBytesToNat_natToBEBytes8 (w : Nat) (hw : w < 2 ^ 64) :
    beBytesToNat (natToBEBytes 8 w) = w := by
  rw [beBytesToNat_natToBEBytes]
  have h : (256 : Nat) ^ 8 = 2 ^ 64 := by norm_num
  rw [h, Nat.mod_eq_of_lt hw]

lemma h4_explicit (a b c d : Nat) : h4ToFilledByteSlice [a, b, c, d] =
    natToBEBytes 8 a ++ (natToBEBytes 8 b ++ (natToBEBytes 8 c ++ natToBEBytes 8 d)) := by
  simp [h4ToFilledByteSlice, List.range_succ]

lemma h4_inj (d d' : List Nat) (hd : d.length = 4) (hd' : d'.length = 4)
    (hb : ∀ x ∈ d, x < 2 ^ 64) (hb' : ∀ x ∈ d', x < 2 ^ 64)
    (h : h4ToFilledByteSlice d = h4ToFilledByteSlice d') : d = d' := by
  obtain ⟨a0, a1, a2, a3, rfl⟩ := list_len4 d hd
  obtain ⟨b0, b1, b2, b3, rfl⟩ := list_len4 d' hd'
  rw [h4_explicit, h4_explicit] at h
  have e0 := (List.append_inj h (by simp [natToBEBytes_length])).1
  have r0 := (List.append_inj h (by simp [natToBEBytes_length])).2
  have e1 := (List.append_inj r0 (by simp [natToBEBytes_length])).1
  have r1 := (List.append_inj r0 (by simp [natToBEBytes_length])).2
  have e2 := (List.append_inj r1 (by simp [natToBEBytes_length])).1
  have e3 := (List.append_inj r1 (by simp [natToBEBytes_length])).2
  have q0 : a0 = b0 := by
    rw [← beBytesToNat_natToBEBytes8 a0 (hb a0 (by simp)),
      ← beBytesToNat_natToBEBytes8 b0 (hb' b0 (by simp)), e0]
  have q1 : a1 = b1 := by
    rw [← beBytesToNat_natToBEBytes8 a1 (hb a1 (by simp)),
      ← beBytesToNat_natToBEBytes8 b1 (hb' b1 (by simp)), e1]
  have q2 : a2 = b2 := by
    rw [← beBytesToNat_natToBEBytes8 a2 (hb a2 (by simp)),
      ← beBytesToNat_natToBEBytes8 b2 (hb' b2 (by simp)), e2]
  have q3 : a3 = b3 := by
    rw [← beBytesToNat_natToBEBytes8 a3 (hb a3 (by simp)),
      ← beBytesToNat_natToBEBytes8 b3 (hb' b3 (by simp)), e3]
  rw [q0, q1, q2, q3]

lemma keyEthAddr_trace (f : List Nat → List Nat → Except Nat (List Nat))
    (a : List Nat) (t : Nat) (c : List Nat) (arr : List Nat) (s : Trace)
    (ha : scalar2fea (beBytesToNat a : Int) 160 = .ok arr) :
    ((keyEthAddr (m := StateM Trace) (recHash f) a t c).run s).2
      = s ++ [([arr.getD 0 0, arr.getD 1 0, arr.getD 2 0, arr.getD 3 0,
          arr.getD 4 0, 0, t, 0], c)] := by
  cases hf : f [arr.getD 0 0, arr.getD 1 0, arr.getD 2 0, arr.getD 3 0,
      arr.getD 4 0, 0, t, 0] c <;>
    simp only [keyEthAddr, recHash, ha, hf, StateT.run_bind, StateT.run, bind,
      StateT.bind, pure, StateT.pure] <;> rfl

lemma KeyEthAddrBalance_trace (f : List Nat → List Nat → Except Nat (List Nat))
    (a : List Nat) :
    (KeyEthAddrBalance (m := StateM Trace) traceStr (recHash f) a).run []
      = (keyEthAddr (m := StateM Trace) (recHash f) a leafTypeBalance defaultCapVal).run [] := rfl

lemma KeyEthAddrNonce_trace (f : List Nat → List Nat → Except Nat (List Nat))
    (a : List Nat) :
    (KeyEthAddrNonce (m := StateM Trace) traceStr (recHash f) a).run []
      = (keyEthAddr (m := StateM Trace) (recHash f) a leafTypeNonce defaultCapVal).run [] := rfl

lemma KeyContractCode_trace (f : List Nat → List Nat → Except Nat (List Nat))
    (a : List Nat) :
    (KeyContractCode (m := StateM Trace) traceStr (recHash f) a).run []
      = (keyEthAddr (m := StateM Trace) (recHash f) a leafTypeCode defaultCapVal).run [] := rfl

/-- C1: for every address whose field-element encoding succeeds, each of
the balance, nonce and code derivations invokes the hash oracle exactly
once, on the 8-element input `[addrFE[0..4], 0, leafTag, 0]` — address
encoding in slots 0–4, slot 5 zero, slot 6 the leaf-type tag (0 for
balance, 1 for nonce, 2 for code), slot 7 zero — with the default capacity
as the hash's capacity input. -/
theorem C1_balance_nonce_code_key1_assembly
    (f : List Nat → List Nat → Except Nat (List Nat)) (a arr : List Nat)
    (ha : scalar2fea (beBytesToNat a : Int) 160 = .ok arr) :
    ((KeyEthAddrBalance (m := StateM Trace) traceStr (recHash f) a).run []).2
        = [([arr.getD 0 0, arr.getD 1 0, arr.getD 2 0, arr.getD 3 0, arr.getD 4 0,
            0, 0, 0], defaultCapVal)] ∧
    ((KeyEthAddrNonce (m := StateM Trace) traceStr (recHash f) a).run []).2
        = [([arr.getD 0 0, arr.getD 1 0, arr.getD 2 0, arr.getD 3 0, arr.getD 4 0,
            0, 1, 0], defaultCapVal)] ∧
    ((KeyContractCode (m := StateM Trace) traceStr (recHash f) a).run []).2
        = [([arr.getD 0 0, arr.getD 1 0, arr.getD 2 0, arr.getD 3 0, arr.getD 4 0,
            0, 2, 0], defaultCapVal)] := by
  refine ⟨?_, ?_, ?_⟩
  · rw [KeyEthAddrBalance_trace, keyEthAddr_trace f a leafTypeBalance defaultCapVal arr [] ha]
    simp [leafTypeBalance]
  · rw [KeyEthAddrNonce_trace, keyEthAddr_trace f a leafTypeNonce defaultCapVal arr [] ha]
    simp [leafTypeNonce]
  · rw [KeyContractCode_trace, keyEthAddr_trace f a leafTypeCode defaultCapVal arr [] ha]
    simp [leafTypeCode]

theorem C1_witness :
    ((KeyEthAddrBalance (m := StateM Trace) traceStr (recHash zeroOracle) [1]).run []).2
        = [([1, 0, 0, 0, 0, 0, 0, 0], defaultCapVal)] ∧
    ((KeyEthAddrNonce (m := StateM Trace) traceStr (recHash zeroOracle) [1]).run []).2
        = [([1, 0, 0, 0, 0, 0, 1, 0], defaultCapVal)] ∧
    ((KeyContractCode (m := StateM Trace) traceStr (recHash zeroOracle) [1]).run []).2
        = [([1, 0, 0, 0, 0, 0, 2, 0], defaultCapVal)] :=
  C1_balance_nonce_code_key1_assembly zeroOracle [1] [1, 0, 0, 0, 0, 0, 0, 0] (by decide)

/-- C2: for every address and storage position whose encodings succeed,
`KeyContractStorage` performs exactly two hash calls: first on the full
8-slot 256-bit encoding of the position with the all-zero 4-element
capacity, producing `hk0`, then on `[addrFE[0..4], 0, 3, 0]` with capacity
`hk0` — not the default capacity constant. -/
theorem C2_storage_two_hash_calls
    (f : List Nat → List Nat → Except Nat (List Nat)) (a p arr sArr hk0 : List Nat)
    (ha : scalar2fea (beBytesToNat a : Int) 160 = .ok arr)
    (hp : scalar2fea (beBytesToNat p : Int) 256 = .ok sArr)
    (hf : f [sArr.getD 0 0, sArr.getD 1 0, sArr.getD 2 0, sArr.getD 3 0, sArr.getD 4 0,
        sArr.getD 5 0, sArr.getD 6 0, sArr.getD 7 0] [0, 0, 0, 0] = .ok hk0) :
    ((KeyContractStorage (m := StateM Trace) (recHash f) a p).run []).2
      = [([sArr.getD 0 0, sArr.getD 1 0, sArr.getD 2 0, sArr.getD 3 0, sArr.getD 4 0,
          sArr.getD 5 0, sArr.getD 6 0, sArr.getD 7 0], [0, 0, 0, 0]),
         ([arr.getD 0 0, arr.getD 1 0, arr.getD 2 0, arr.getD 3 0, arr.getD 4 0,
          0, 3, 0], hk0)] := by
  simp only [KeyContractStorage, recHash, hp, hf, StateT.run_bind, StateT.run, bind,
    StateT.bind, pure, StateT.pure]
  have ht := keyEthAddr_trace f a leafTypeStorage hk0 arr
    ([] ++ [([sArr.getD 0 0, sArr.getD 1 0, sArr.getD 2 0, sArr.getD 3 0, sArr.getD 4 0,
      sArr.getD 5 0, sArr.getD 6 0, sArr.getD 7 0], [0, 0, 0, 0])]) ha
  simp only [StateT.run] at ht
  rw [ht]
  simp [leafTypeStorage]

theorem C2_witness :
    ((KeyContractStorage (m := StateM Trace) (recHash zeroOracle) [1] [2]).run []).2
      = [([2, 0, 0, 0, 0, 0, 0, 0], [0, 0, 0, 0]),
         ([1, 0, 0, 0, 0, 0, 3, 0], [0, 0, 0, 0])] :=
  C2_storage_two_hash_calls zeroOracle [1] [2] [1, 0, 0, 0, 0, 0, 0, 0]
    [2, 0, 0, 0, 0, 0, 0, 0] [0, 0, 0, 0] (by decide) (by decide) (by decide)

lemma keyEthAddr_count (f : List Nat → List Nat → Except Nat (List Nat))
    (a : List Nat) (t : Nat) (c : List Nat) (n : Nat) :
    ((keyEthAddr (m := StateM Nat) (countHash f) a t c).run n).2 = n := by
  cases hs : scalar2fea (beBytesToNat a : Int) 160 with
  | error e =>
    simp only [keyEthAddr, hs, StateT.run, pure, StateT.pure]
  | ok arr =>
    cases hf : f [arr.getD 0 0, arr.getD 1 0, arr.getD 2 0, arr.getD 3 0,
        arr.getD 4 0, 0, t, 0] c <;>
      simp only [keyEthAddr, countHash, hs, hf, StateT.run_bind, StateT.run, bind,
        StateT.bind, pure, StateT.pure]

lemma KeyEthAddrBalance_count (f : List Nat → List Nat → Except Nat (List Nat))
    (a : List Nat) (n : Nat) :
    ((KeyEthAddrBalance (m := StateM Nat) countStr (countHash f) a).run n).2 = n + 1 := by
  simp only [KeyEthAddrBalance, defaultCapIn, countStr, stringToh4_seed,
    StateT.run_bind, StateT.run, bind, StateT.bind, pure, StateT.pure]
  have hc := keyEthAddr_count f a leafTypeBalance
    [0xc71603f33a1144ca, 0x7953db0ab48808f4, 0xc4055e3364a246c3, 0x3c18a9786cb0b359] (n + 1)
  simp only [StateT.run] at hc
  exact hc

lemma KeyEthAddrNonce_count (f : List Nat → List Nat → Except Nat (List Nat))
    (a : List Nat) (n : Nat) :
    ((KeyEthAddrNonce (m := StateM Nat) countStr (countHash f) a).run n).2 = n + 1 := by
  simp only [KeyEthAddrNonce, defaultCapIn, countStr, stringToh4_seed,
    StateT.run_bind, StateT.run, bind, StateT.bind, pure, StateT.pure]
  have hc := keyEthAddr_count f a leafTypeNonce
    [0xc71603f33a1144ca, 0x7953db0ab48808f4, 0xc4055e3364a246c3, 0x3c18a9786cb0b359] (n + 1)
  simp only [StateT.run] at hc
  exact hc

lemma KeyContractCode_count (f : List Nat → List Nat → Except Nat (List Nat))
    (a : List Nat) (n : Nat) :
    ((KeyContractCode (m := StateM Nat) countStr (countHash f) a).run n).2 = n + 1 := by
  simp only [KeyContractCode, defaultCapIn, countStr, stringToh4_seed,
    StateT.run_bind, StateT.run, bind, StateT.bind, pure, StateT.pure]
  have hc := keyEthAddr_count f a leafTypeCode
    [0xc71603f33a1144ca, 0x7953db0ab48808f4, 0xc4055e3364a246c3, 0x3c18a9786cb0b359] (n + 1)
  simp only [StateT.run] at hc
  exact hc

/-- C4: an input integer that is negative or needs more bits than its
declared width (160 for an address, 256 for a storage position) makes the
derivation fail with an `EncodingError`, detected before any hash-oracle
call: the recorded oracle-call trace of such a derivation is empty. -/
theorem C4_encoding_error_zero_hash_calls :
    (∀ (n : Int) (w : Nat), n < 0 → scalar2fea n w = .error .negative) ∧
    (∀ (n : Int) (w : Nat), 0 ≤ n → 2 ^ w ≤ n.toNat → scalar2fea n w = .error .overwidth) ∧
    (∀ (f : List Nat → List Nat → Except Nat (List Nat)) (a p : List Nat),
      2 ^ 256 ≤ beBytesToNat p →
      (KeyContractStorage (m := StateM Trace) (recHash f) a p).run []
        = (.error (.encoding .overwidth), [])) ∧
    (∀ (f : List Nat → List Nat → Except Nat (List Nat)) (a : List Nat) (t : Nat)
      (c : List Nat), 2 ^ 160 ≤ beBytesToNat a →
      (keyEthAddr (m := StateM Trace) (recHash f) a t c).run []
        = (.error (.encoding .overwidth), [])) := by
  have hneg : ∀ (n : Int) (w : Nat), n < 0 → scalar2fea n w = .error .negative := by
    intro n w h
    simp only [scalar2fea, if_pos h]
  have hov : ∀ (n : Int) (w : Nat), 0 ≤ n → 2 ^ w ≤ n.toNat →
      scalar2fea n w = .error .overwidth := by
    intro n w h0 h
    have hn : ¬ n < 0 := by omega
    simp only [scalar2fea, if_neg hn, if_pos h]
  refine ⟨hneg, hov, ?_, ?_⟩
  · intro f a p h
    have hp : scalar2fea (beBytesToNat p : Int) 256 = .error .overwidth := by
      refine hov _ _ (by positivity) ?_
      simpa using h
    simp only [KeyContractStorage, hp, StateT.run, pure, StateT.pure]
  · intro f a t c h
    have ha : scalar2fea (beBytesToNat a : Int) 160 = .error .overwidth := by
      refine hov _ _ (by positivity) ?_
      simpa using h
    simp only [keyEthAddr, ha, StateT.run, pure, StateT.pure]

theorem C4_witness :
    scalar2fea (-1) 160 = .error .negative ∧
    scalar2fea ((2 : Int) ^ 256) 256 = .error .overwidth ∧
    (KeyContractStorage (m := StateM Trace) (recHash zeroOracle) [1]
        (List.replicate 33 255)).run [] = (.error (.encoding .overwidth), []) ∧
    (keyEthAddr (m := StateM Trace) (recHash zeroOracle) (List.replicate 21 255) 0
        [0, 0, 0, 0]).run [] = (.error (.encoding .overwidth), []) :=
  ⟨C4_encoding_error_zero_hash_calls.1 (-1) 160 (by decide),
   C4_encoding_error_zero_hash_calls.2.1 ((2 : Int) ^ 256) 256 (by decide) (by decide),
   C4_encoding_error_zero_hash_calls.2.2.1 zeroOracle [1] (List.replicate 33 255) (by decide),
   C4_encoding_error_zero_hash_calls.2.2.2 zeroOracle (List.replicate 21 255) 0
     [0, 0, 0, 0] (by decide)⟩

/-- C5 counterexample: a process that performs two balance derivations
evaluates the hex-seed parse (`stringToh4` inside `defaultCapIn`) twice —
the default capacity is recomputed on the second derivation rather than
computed at most once per process. -/
theorem C5_counterexample :
    ((do
        _ ← KeyEthAddrBalance (m := StateM Nat) countStr (countHash zeroOracle)
          (List.replicate 20 0)
        KeyEthAddrBalance (m := StateM Nat) countStr (countHash zeroOracle)
          (List.replicate 20 0)).run 0).2 = 2 ∧ ¬ (2 : Nat) ≤ 1 := by
  constructor
  · decide
  · decide

/-- C5 amended: the default capacity is not cached: every balance, nonce
and code derivation invokes the hex-seed parse exactly once (the parse
count rises by one per derivation, from any starting count), and each
recomputation returns the same constant vector `defaultCapVal`. -/
theorem C5_amended_recomputed_every_derivation :
    (∀ (f : List Nat → List Nat → Except Nat (List Nat)) (n : Nat) (a : List Nat),
      ((KeyEthAddrBalance (m := StateM Nat) countStr (countHash f) a).run n).2 = n + 1 ∧
      ((KeyEthAddrNonce (m := StateM Nat) countStr (countHash f) a).run n).2 = n + 1 ∧
      ((KeyContractCode (m := StateM Nat) countStr (countHash f) a).run n).2 = n + 1) ∧
    defaultCapInRun = .ok defaultCapVal :=
  ⟨fun f n a => ⟨KeyEthAddrBalance_count f a n, KeyEthAddrNonce_count f a n,
    KeyContractCode_count f a n⟩, defaultCapInRun_eq⟩

/-- C3 counterexample: two distinct byte-slice positions that denote the
same big-endian integer (`[0x01]` and `[0x00, 0x01]`) produce identical
storage keys for the same address, for the stub oracle — the derivations
coincide before the oracle is ever consulted, since `SetBytes` maps both
slices to the same integer. -/
theorem C3_counterexample :
    ([1] : List Nat) ≠ [0, 1] ∧
    KeyContractStorageRun zeroOracle (List.replicate 20 0) [1]
      = KeyContractStorageRun zeroOracle (List.replicate 20 0) [0, 1] :=
  ⟨by decide, by decide⟩

/-- C3 amended: for a fixed address and two storage positions denoting
distinct integers below `2^256`, the two derivations give the hash oracle
distinct inputs at both stages — the 8-slot position encodings differ, and
(when the oracle does not collide on them, `hcol1`) the second-stage
(input, capacity) pairs differ; if the oracle also returns distinct valid
digests on those second-stage inputs (`hcol2`), the resulting keys are
distinct. -/
theorem C3_storage_position_separation
    (f : List Nat → List Nat → Except Nat (List Nat))
    (a p q arr pArr qArr hkp hkq dp dq : List Nat)
    (hplt : beBytesToNat p < 2 ^ 256) (hqlt : beBytesToNat q < 2 ^ 256)
    (hne : beBytesToNat p ≠ beBytesToNat q)
    (hp : scalar2fea (beBytesToNat p : Int) 256 = .ok pArr)
    (hq : scalar2fea (beBytesToNat q : Int) 256 = .ok qArr)
    (ha : scalar2fea (beBytesToNat a : Int) 160 = .ok arr)
    (hfp : f [pArr.getD 0 0, pArr.getD 1 0, pArr.getD 2 0, pArr.getD 3 0, pArr.getD 4 0,
        pArr.getD 5 0, pArr.getD 6 0, pArr.getD 7 0] [0, 0, 0, 0] = .ok hkp)
    (hfq : f [qArr.getD 0 0, qArr.getD 1 0, qArr.getD 2 0, qArr.getD 3 0, qArr.getD 4 0,
        qArr.getD 5 0, qArr.getD 6 0, qArr.getD 7 0] [0, 0, 0, 0] = .ok hkq)
    (hcol1 : hkp ≠ hkq)
    (hdp : f [arr.getD 0 0, arr.getD 1 0, arr.getD 2 0, arr.getD 3 0, arr.getD 4 0,
        0, 3, 0] hkp = .ok dp)
    (hdq : f [arr.getD 0 0, arr.getD 1 0, arr.getD 2 0, arr.getD 3 0, arr.getD 4 0,
        0, 3, 0] hkq = .ok dq)
    (hcol2 : dp ≠ dq)
    (hlp : dp.length = 4) (hlq : dq.length = 4)
    (hbp : ∀ x ∈ dp, x < 2 ^ 64) (hbq : ∀ x ∈ dq, x < 2 ^ 64) :
    [pArr.getD 0 0, pArr.getD 1 0, pArr.getD 2 0, pArr.getD 3 0, pArr.getD 4 0,
      pArr.getD 5 0, pArr.getD 6 0, pArr.getD 7 0]
      ≠ [qArr.getD 0 0, qArr.getD 1 0, qArr.getD 2 0, qArr.getD 3 0, qArr.getD 4 0,
      qArr.getD 5 0, qArr.getD 6 0, qArr.getD 7 0] ∧
    ([arr.getD 0 0, arr.getD 1 0, arr.getD 2 0, arr.getD 3 0, arr.getD 4 0, 0, 3, 0], hkp)
      ≠ ([arr.getD 0 0, arr.getD 1 0, arr.getD 2 0, arr.getD 3 0, arr.getD 4 0, 0, 3, 0], hkq) ∧
    KeyContractStorageRun f a p ≠ KeyContractStorageRun f a q := by
  have hgp : ∀ i, i < 8 → pArr.getD i 0 = beBytesToNat p / 2 ^ (32 * i) % 2 ^ 32 :=
    fun i hi => scalar2fea_nat_getD (beBytesToNat p) 8 (by norm_num)
      (by simpa using hplt) pArr hp i hi
  have hgq : ∀ i, i < 8 → qArr.getD i 0 = beBytesToNat q / 2 ^ (32 * i) % 2 ^ 32 :=
    fun i hi => scalar2fea_nat_getD (beBytesToNat q) 8 (by norm_num)
      (by simpa using hqlt) qArr hq i hi
  refine ⟨?_, ?_, ?_⟩
  · intro heq
    simp only [List.cons.injEq, and_true] at heq
    obtain ⟨e0, e1, e2, e3, e4, e5, e6, e7⟩ := heq
    refine hne (fea_inj _ _ hplt hqlt ?_)
    intro i hi
    rw [← hgp i hi, ← hgq i hi]
    interval_cases i <;> assumption
  · intro hpair
    exact hcol1 (congrArg Prod.snd hpair)
  · have hrunp : KeyContractStorageRun f a p = .ok (h4ToFilledByteSlice dp) := by
      rw [KeyContractStorageRun_eq]
      simp only [hp, hfp]
      rw [keyEthAddrRun_eq]
      simp only [ha, leafTypeStorage, hdp]
    have hrunq : KeyContractStorageRun f a q = .ok (h4ToFilledByteSlice dq) := by
      rw [KeyContractStorageRun_eq]
      simp only [hq, hfq]
      rw [keyEthAddrRun_eq]
      simp only [ha, leafTypeStorage, hdq]
    rw [hrunp, hrunq]
    intro hok
    have hkeys : h4ToFilledByteSlice dp = h4ToFilledByteSlice dq := by
      injection hok
    exact hcol2 (h4_inj dp dq hlp hlq hbp hbq hkeys)

theorem C3_witness :
    ([1, 0, 0, 0, 0, 0, 0, 0] : List Nat) ≠ [2, 0, 0, 0, 0, 0, 0, 0] ∧
    (([1, 0, 0, 0, 0, 0, 3, 0], [1, 0, 0, 0]) : List Nat × List Nat)
      ≠ ([1, 0, 0, 0, 0, 0, 3, 0], [2, 0, 0, 0]) ∧
    KeyContractStorageRun slotOracle [1] [1] ≠ KeyContractStorageRun slotOracle [1] [2] :=
  C3_storage_position_separation slotOracle [1] [1] [2]
    [1, 0, 0, 0, 0, 0, 0, 0] [1, 0, 0, 0, 0, 0, 0, 0] [2, 0, 0, 0, 0, 0, 0, 0]
    [1, 0, 0, 0] [2, 0, 0, 0] [1, 1, 0, 0] [1, 2, 0, 0]
    (by decide) (by decide) (by decide) (by decide) (by decide) (by decide)
    (by decide) (by decide) (by decide) (by decide) (by decide) (by decide)
    (by decide) (by decide) (by decide) (by decide)

/-- C6: the field-element encoding of a non-negative in-range integer
succeeds and returns 8 slots holding the 4-byte groups of the big-endian
byte representation, least-significant group first (slot `i` holds
`n / 2^(32 i) mod 2^32`, so unused high slots are zero), and every slot is
strictly below `2^32`. -/
theorem C6_field_encoding_characterization (n : Int) (w : Nat)
    (hw : w = 160 ∨ w = 256) (h0 : 0 ≤ n) (hlt : n.toNat < 2 ^ w) :
    ∃ l, scalar2fea n w = .ok l ∧ l.length = 8 ∧
      ∀ i, i < 8 → l.getD i 0 = n.toNat / 2 ^ (32 * i) % 2 ^ 32 ∧ l.getD i 0 < 2 ^ 32 := by
  have hn : ((n.toNat : Nat) : Int) = n := Int.toNat_of_nonneg h0
  rcases hw with h160 | h256
  · subst h160
    have hlt' : n.toNat < 2 ^ (32 * 5) := hlt
    have hok := scalar2fea_nat_ok n.toNat 5 hlt'
    rw [hn] at hok
    refine ⟨_, hok, ?_, ?_⟩
    · simp
    · intro i hi
      have hv := scalar2fea_nat_getD n.toNat 5 (by norm_num) hlt' _
        (by rw [hn]; exact hok) i hi
      exact ⟨hv, by rw [hv]; exact Nat.mod_lt _ (by norm_num)⟩
  · subst h256
    have hlt' : n.toNat < 2 ^ (32 * 8) := hlt
    have hok := scalar2fea_nat_ok n.toNat 8 hlt'
    rw [hn] at hok
    refine ⟨_, hok, ?_, ?_⟩
    · simp
    · intro i hi
      have hv := scalar2fea_nat_getD n.toNat 8 (by norm_num) hlt' _
        (by rw [hn]; exact hok) i hi
      exact ⟨hv, by rw [hv]; exact Nat.mod_lt _ (by norm_num)⟩

theorem C6_witness :
    ∃ l, scalar2fea 5 160 = .ok l ∧ l.length = 8 ∧
      ∀ i, i < 8 → l.getD i 0 = (5 : Int).toNat / 2 ^ (32 * i) % 2 ^ 32 ∧
        l.getD i 0 < 2 ^ 32 :=
  C6_field_encoding_characterization 5 160 (Or.inl rfl) (by decide) (by decide)

/-- C7: for a fixed address (and a storage position), the four final hash
calls of the balance, nonce, code and storage derivations receive pairwise
distinct (input, capacity) argument pairs — the leaf-tag slot 6 carries
0, 1, 2, 3 respectively — and, provided the oracle returns pairwise
distinct valid digests on them, the four derived keys are pairwise
distinct. -/
theorem C7_leaf_type_separation
    (f : List Nat → List Nat → Except Nat (List Nat))
    (a p arr sArr hk0 d0 d1 d2 d3 : List Nat)
    (ha : scalar2fea (beBytesToNat a : Int) 160 = .ok arr)
    (hp : scalar2fea (beBytesToNat p : Int) 256 = .ok sArr)
    (hfs : f [sArr.getD 0 0, sArr.getD 1 0, sArr.getD 2 0, sArr.getD 3 0, sArr.getD 4 0,
        sArr.getD 5 0, sArr.getD 6 0, sArr.getD 7 0] [0, 0, 0, 0] = .ok hk0)
    (hf0 : f [arr.getD 0 0, arr.getD 1 0, arr.getD 2 0, arr.getD 3 0, arr.getD 4 0,
        0, 0, 0] defaultCapVal = .ok d0)
    (hf1 : f [arr.getD 0 0, arr.getD 1 0, arr.getD 2 0, arr.getD 3 0, arr.getD 4 0,
        0, 1, 0] defaultCapVal = .ok d1)
    (hf2 : f [arr.getD 0 0, arr.getD 1 0, arr.getD 2 0, arr.getD 3 0, arr.getD 4 0,
        0, 2, 0] defaultCapVal = .ok d2)
    (hf3 : f [arr.getD 0 0, arr.getD 1 0, arr.getD 2 0, arr.getD 3 0, arr.getD 4 0,
        0, 3, 0] hk0 = .ok d3)
    (hd01 : d0 ≠ d1) (hd02 : d0 ≠ d2) (hd03 : d0 ≠ d3)
    (hd12 : d1 ≠ d2) (hd13 : d1 ≠ d3) (hd23 : d2 ≠ d3)
    (hl0 : d0.length = 4) (hl1 : d1.length = 4) (hl2 : d2.length = 4) (hl3 : d3.length = 4)
    (hb0 : ∀ x ∈ d0, x < 2 ^ 64) (hb1 : ∀ x ∈ d1, x < 2 ^ 64)
    (hb2 : ∀ x ∈ d2, x < 2 ^ 64) (hb3 : ∀ x ∈ d3, x < 2 ^ 64) :
    ([([arr.getD 0 0, arr.getD 1 0, arr.getD 2 0, arr.getD 3 0, arr.getD 4 0, 0, 0, 0],
        defaultCapVal),
      ([arr.getD 0 0, arr.getD 1 0, arr.getD 2 0, arr.getD 3 0, arr.getD 4 0, 0, 1, 0],
        defaultCapVal),
      ([arr.getD 0 0, arr.getD 1 0, arr.getD 2 0, arr.getD 3 0, arr.getD 4 0, 0, 2, 0],
        defaultCapVal),
      ([arr.getD 0 0, arr.getD 1 0, arr.getD 2 0, arr.getD 3 0, arr.getD 4 0, 0, 3, 0],
        hk0)] : List (List Nat × List Nat)).Pairwise (fun x y => x ≠ y) ∧
    KeyEthAddrBalanceRun f a = .ok (h4ToFilledByteSlice d0) ∧
    KeyEthAddrNonceRun f a = .ok (h4ToFilledByteSlice d1) ∧
    KeyContractCodeRun f a = .ok (h4ToFilledByteSlice d2) ∧
    KeyContractStorageRun f a p = .ok (h4ToFilledByteSlice d3) ∧
    ([KeyEthAddrBalanceRun f a, KeyEthAddrNonceRun f a, KeyContractCodeRun f a,
      KeyContractStorageRun f a p] : List (Except DeriveError (List Nat))).Pairwise
      (fun x y => x ≠ y) := by
  have hr0 : KeyEthAddrBalanceRun f a = .ok (h4ToFilledByteSlice d0) := by
    rw [KeyEthAddrBalanceRun_eq, keyEthAddrRun_eq]
    simp only [ha, leafTypeBalance, hf0]
  have hr1 : KeyEthAddrNonceRun f a = .ok (h4ToFilledByteSlice d1) := by
    rw [KeyEthAddrNonceRun_eq, keyEthAddrRun_eq]
    simp only [ha, leafTypeNonce, hf1]
  have hr2 : KeyContractCodeRun f a = .ok (h4ToFilledByteSlice d2) := by
    rw [KeyContractCodeRun_eq, keyEthAddrRun_eq]
    simp only [ha, leafTypeCode, hf2]
  have hr3 : KeyContractStorageRun f a p = .ok (h4ToFilledByteSlice d3) := by
    rw [KeyContractStorageRun_eq]
    simp only [hp, hfs]
    rw [keyEthAddrRun_eq]
    simp only [ha, leafTypeStorage, hf3]
  have hkey : ∀ (x y : List Nat), x.length = 4 → y.length = 4 →
      (∀ v ∈ x, v < 2 ^ 64) → (∀ v ∈ y, v < 2 ^ 64) → x ≠ y →
      (Except.ok (h4ToFilledByteSlice x) : Except DeriveError (List Nat))
        ≠ .ok (h4ToFilledByteSlice y) := by
    intro x y hx hy hbx hby hxy hok
    have hkeys : h4ToFilledByteSlice x = h4ToFilledByteSlice y := by injection hok
    exact hxy (h4_inj x y hx hy hbx hby hkeys)
  refine ⟨?_, hr0, hr1, hr2, hr3, ?_⟩
  · refine List.Pairwise.cons ?_ (List.Pairwise.cons ?_ (List.Pairwise.cons ?_
      (List.Pairwise.cons ?_ List.Pairwise.nil)))
    · intro y hy
      fin_cases hy <;> intro hc <;> simp [Prod.ext_iff, List.cons.injEq] at hc
    · intro y hy
      fin_cases hy <;> intro hc <;> simp [Prod.ext_iff, List.cons.injEq] at hc
    · intro y hy
      fin_cases hy <;> intro hc <;> simp [Prod.ext_iff, List.cons.injEq] at hc
    · intro y hy
      exact absurd hy (List.not_mem_nil y)
  · rw [hr0, hr1, hr2, hr3]
    refine List.Pairwise.cons ?_ (List.Pairwise.cons ?_ (List.Pairwise.cons ?_
      (List.Pairwise.cons ?_ List.Pairwise.nil)))
    · intro y hy
      fin_cases hy
      · exact hkey d0 d1 hl0 hl1 hb0 hb1 hd01
      · exact hkey d0 d2 hl0 hl2 hb0 hb2 hd02
      · exact hkey d0 d3 hl0 hl3 hb0 hb3 hd03
    · intro y hy
      fin_cases hy
      · exact hkey d1 d2 hl1 hl2 hb1 hb2 hd12
      · exact hkey d1 d3 hl1 hl3 hb1 hb3 hd13
    · intro y hy
      fin_cases hy
      exact hkey d2 d3 hl2 hl3 hb2 hb3 hd23
    · intro y hy
      exact absurd hy (List.not_mem_nil y)

theorem C7_witness :
    ([([1, 0, 0, 0, 0, 0, 0, 0], defaultCapVal),
      ([1, 0, 0, 0, 0, 0, 1, 0], defaultCapVal),
      ([1, 0, 0, 0, 0, 0, 2, 0], defaultCapVal),
      ([1, 0, 0, 0, 0, 0, 3, 0], [0, 0, 0, 0])] :
      List (List Nat × List Nat)).Pairwise (fun x y => x ≠ y) ∧
    KeyEthAddrBalanceRun tagOracle [1]
      = .ok (h4ToFilledByteSlice [0, 14345658006221440202, 0, 0]) ∧
    KeyEthAddrNonceRun tagOracle [1]
      = .ok (h4ToFilledByteSlice [1, 14345658006221440202, 0, 0]) ∧
    KeyContractCodeRun tagOracle [1]
      = .ok (h4ToFilledByteSlice [2, 14345658006221440202, 0, 0]) ∧
    KeyContractStorageRun tagOracle [1] [5]
      = .ok (h4ToFilledByteSlice [3, 0, 0, 0]) ∧
    ([KeyEthAddrBalanceRun tagOracle [1], KeyEthAddrNonceRun tagOracle [1],
      KeyContractCodeRun tagOracle [1], KeyContractStorageRun tagOracle [1] [5]] :
      List (Except DeriveError (List Nat))).Pairwise (fun x y => x ≠ y) :=
  C7_leaf_type_separation tagOracle [1] [5]
    [1, 0, 0, 0, 0, 0, 0, 0] [5, 0, 0, 0, 0, 0, 0, 0] [0, 0, 0, 0]
    [0, 14345658006221440202, 0, 0] [1, 14345658006221440202, 0, 0]
    [2, 14345658006221440202, 0, 0] [3, 0, 0, 0]
    (by decide) (by decide) (by decide) (by decide) (by decide) (by decide) (by decide)
    (by decide) (by decide) (by decide) (by decide) (by decide) (by decide)
    (by decide) (by decide) (by decide) (by decide)
    (by decide) (by decide) (by decide) (by decide)

/-- A stub oracle that always fails, with error code 7. -/
def errOracle : List Nat → List Nat → Except Nat (List Nat) :=
  fun _ _ => .error 7

/-- A stub oracle that fails (code 9) exactly when slot 6 of the input is
the storage tag 3, and otherwise answers `[1, 2, 3, 4]`. -/
def mixOracle : List Nat → List Nat → Except Nat (List Nat) :=
  fun i _ => if i.getD 6 0 = 3 then .error 9 else .ok [1, 2, 3, 4]

/-- C8: every oracle error is propagated verbatim — if the hash oracle
answers a derivation's call with error `e`, the derivation returns exactly
that `e` (wrapped as a hash error), and otherwise the derivation returns a
complete serialized key; the balance/nonce/code wrappers are the common
core at tags 0/1/2 with the default capacity, so this covers all four
public operations. -/
theorem C8_oracle_error_propagation :
    (∀ (f : List Nat → List Nat → Except Nat (List Nat)) (a : List Nat) (t : Nat)
      (c arr : List Nat) (e : Nat),
      scalar2fea (beBytesToNat a : Int) 160 = .ok arr →
      f [arr.getD 0 0, arr.getD 1 0, arr.getD 2 0, arr.getD 3 0, arr.getD 4 0, 0, t, 0] c
        = .error e →
      keyEthAddrRun f a t c = .error (.hash e)) ∧
    (∀ (f : List Nat → List Nat → Except Nat (List Nat)) (a : List Nat) (t : Nat)
      (c arr d : List Nat),
      scalar2fea (beBytesToNat a : Int) 160 = .ok arr →
      f [arr.getD 0 0, arr.getD 1 0, arr.getD 2 0, arr.getD 3 0, arr.getD 4 0, 0, t, 0] c
        = .ok d →
      keyEthAddrRun f a t c = .ok (h4ToFilledByteSlice d)) ∧
    (∀ (f : List Nat → List Nat → Except Nat (List Nat)) (a p sArr : List Nat) (e : Nat),
      scalar2fea (beBytesToNat p : Int) 256 = .ok sArr →
      f [sArr.getD 0 0, sArr.getD 1 0, sArr.getD 2 0, sArr.getD 3 0, sArr.getD 4 0,
        sArr.getD 5 0, sArr.getD 6 0, sArr.getD 7 0] [0, 0, 0, 0] = .error e →
      KeyContractStorageRun f a p = .error (.hash e)) ∧
    (∀ (f : List Nat → List Nat → Except Nat (List Nat)) (a p sArr hk0 arr : List Nat)
      (e : Nat),
      scalar2fea (beBytesToNat p : Int) 256 = .ok sArr →
      f [sArr.getD 0 0, sArr.getD 1 0, sArr.getD 2 0, sArr.getD 3 0, sArr.getD 4 0,
        sArr.getD 5 0, sArr.getD 6 0, sArr.getD 7 0] [0, 0, 0, 0] = .ok hk0 →
      scalar2fea (beBytesToNat a : Int) 160 = .ok arr →
      f [arr.getD 0 0, arr.getD 1 0, arr.getD 2 0, arr.getD 3 0, arr.getD 4 0, 0, 3, 0] hk0
        = .error e →
      KeyContractStorageRun f a p = .error (.hash e)) ∧
    (∀ (f : List Nat → List Nat → Except Nat (List Nat)) (a : List Nat),
      KeyEthAddrBalanceRun f a = keyEthAddrRun f a 0 defaultCapVal ∧
      KeyEthAddrNonceRun f a = keyEthAddrRun f a 1 defaultCapVal ∧
      KeyContractCodeRun f a = keyEthAddrRun f a 2 defaultCapVal) := by
  refine ⟨?_, ?_, ?_, ?_, ?_⟩
  · intro f a t c arr e ha hf
    rw [keyEthAddrRun_eq]
    simp only [ha, hf]
  · intro f a t c arr d ha hf
    rw [keyEthAddrRun_eq]
    simp only [ha, hf]
  · intro f a p sArr e hp hf
    rw [KeyContractStorageRun_eq]
    simp only [hp, hf]
  · intro f a p sArr hk0 arr e hp hfs ha hf
    rw [KeyContractStorageRun_eq]
    simp only [hp, hfs]
    rw [keyEthAddrRun_eq]
    simp only [ha, leafTypeStorage, hf]
  · intro f a
    exact ⟨rfl, rfl, rfl⟩

theorem C8_witness :
    keyEthAddrRun errOracle [1] 0 [0, 0, 0, 0] = .error (.hash 7) ∧
    keyEthAddrRun zeroOracle [1] 0 [0, 0, 0, 0]
      = .ok (h4ToFilledByteSlice [0, 0, 0, 0]) ∧
    KeyContractStorageRun errOracle [1] [5] = .error (.hash 7) ∧
    KeyContractStorageRun mixOracle [1] [5] = .error (.hash 9) ∧
    (KeyEthAddrBalanceRun zeroOracle [1] = keyEthAddrRun zeroOracle [1] 0 defaultCapVal ∧
      KeyEthAddrNonceRun zeroOracle [1] = keyEthAddrRun zeroOracle [1] 1 defaultCapVal ∧
      KeyContractCodeRun zeroOracle [1] = keyEthAddrRun zeroOracle [1] 2 defaultCapVal) :=
  ⟨C8_oracle_error_propagation.1 errOracle [1] 0 [0, 0, 0, 0] [1, 0, 0, 0, 0, 0, 0, 0] 7
      (by decide) (by decide),
   C8_oracle_error_propagation.2.1 zeroOracle [1] 0 [0, 0, 0, 0] [1, 0, 0, 0, 0, 0, 0, 0]
      [0, 0, 0, 0] (by decide) (by decide),
   C8_oracle_error_propagation.2.2.1 errOracle [1] [5] [5, 0, 0, 0, 0, 0, 0, 0] 7
      (by decide) (by decide),
   C8_oracle_error_propagation.2.2.2.1 mixOracle [1] [5] [5, 0, 0, 0, 0, 0, 0, 0]
      [1, 2, 3, 4] [1, 0, 0, 0, 0, 0, 0, 0] 9 (by decide) (by decide) (by decide) (by decide),
   C8_oracle_error_propagation.2.2.2.2 zeroOracle [1]⟩

lemma h4_length (d : List Nat) : (h4ToFilledByteSlice d).length = 32 := by
  simp [h4ToFilledByteSlice, List.range_succ, natToBEBytes_length]

/-- C9: every successful derivation returns exactly 32 bytes, namely the
concatenation of the 4 digest words of the final hash output, each written
as 8 big-endian bytes. -/
theorem C9_key_is_32_bytes :
    (∀ d : List Nat, (h4ToFilledByteSlice d).length = 32 ∧
      h4ToFilledByteSlice d = natToBEBytes 8 (d.getD 0 0) ++ (natToBEBytes 8 (d.getD 1 0) ++
        (natToBEBytes 8 (d.getD 2 0) ++ natToBEBytes 8 (d.getD 3 0)))) ∧
    (∀ (f : List Nat → List Nat → Except Nat (List Nat)) (a : List Nat) (t : Nat)
      (c k : List Nat), keyEthAddrRun f a t c = .ok k →
      k.length = 32 ∧ ∃ d, k = h4ToFilledByteSlice d) ∧
    (∀ (f : List Nat → List Nat → Except Nat (List Nat)) (a p k : List Nat),
      KeyContractStorageRun f a p = .ok k →
      k.length = 32 ∧ ∃ d, k = h4ToFilledByteSlice d) := by
  refine ⟨?_, ?_, ?_⟩
  · intro d
    refine ⟨h4_length d, ?_⟩
    simp [h4ToFilledByteSlice, List.range_succ]
  · intro f a t c k h
    rw [keyEthAddrRun_eq] at h
    cases hs : scalar2fea (beBytesToNat a : Int) 160 with
    | error e => simp only [hs] at h; simp at h
    | ok arr =>
      simp only [hs] at h
      cases hf : f [arr.getD 0 0, arr.getD 1 0, arr.getD 2 0, arr.getD 3 0,
          arr.getD 4 0, 0, t, 0] c with
      | error e => simp only [hf] at h; simp at h
      | ok d =>
        simp only [hf] at h
        simp only [Except.ok.injEq] at h
        exact ⟨h ▸ h4_length d, d, h.symm⟩
  · intro f a p k h
    rw [KeyContractStorageRun_eq] at h
    cases hs : scalar2fea (beBytesToNat p : Int) 256 with
    | error e => simp only [hs] at h; simp at h
    | ok sArr =>
      simp only [hs] at h
      cases hf : f [sArr.getD 0 0, sArr.getD 1 0, sArr.getD 2 0, sArr.getD 3 0,
          sArr.getD 4 0, sArr.getD 5 0, sArr.getD 6 0, sArr.getD 7 0] [0, 0, 0, 0] with
      | error e => simp only [hf] at h; simp at h
      | ok hk0 =>
        simp only [hf] at h
        rw [keyEthAddrRun_eq] at h
        cases hsa : scalar2fea (beBytesToNat a : Int) 160 with
        | error e => simp only [hsa] at h; simp at h
        | ok arr =>
          simp only [hsa] at h
          cases hfa : f [arr.getD 0 0, arr.getD 1 0, arr.getD 2 0, arr.getD 3 0,
              arr.getD 4 0, 0, leafTypeStorage, 0] hk0 with
          | error e => simp only [hfa] at h; simp at h
          | ok d =>
            simp only [hfa] at h
            simp only [Except.ok.injEq] at h
            exact ⟨h ▸ h4_length d, d, h.symm⟩

theorem C9_witness :
    ((h4ToFilledByteSlice [1, 2, 3, 4]).length = 32 ∧
      h4ToFilledByteSlice [1, 2, 3, 4] = natToBEBytes 8 1 ++ (natToBEBytes 8 2 ++
        (natToBEBytes 8 3 ++ natToBEBytes 8 4))) ∧
    ((h4ToFilledByteSlice [0, 0, 0, 0]).length = 32 ∧
      ∃ d, h4ToFilledByteSlice [0, 0, 0, 0] = h4ToFilledByteSlice d) ∧
    ((h4ToFilledByteSlice [0, 0, 0, 0]).length = 32 ∧
      ∃ d, h4ToFilledByteSlice [0, 0, 0, 0] = h4ToFilledByteSlice d) :=
  ⟨C9_key_is_32_bytes.1 [1, 2, 3, 4],
   C9_key_is_32_bytes.2.1 zeroOracle [1] 0 [0, 0, 0, 0] (h4ToFilledByteSlice [0, 0, 0, 0])
     (by decide),
   C9_key_is_32_bytes.2.2 zeroOracle [1] [5] (h4ToFilledByteSlice [0, 0, 0, 0]) (by decide)⟩

/-- C10: a 20-byte address always satisfies the 160-bit width precondition,
so the address-encoding step of every derive operation succeeds and no
`EncodingError` is reachable from the address input: for valid storage
positions the storage derivation cannot return an encoding error either,
leaving only capacity parsing and the oracle as error sources. -/
theorem C10_address_encoding_never_fails (a : List Nat)
    (hlen : a.length = 20) (hbytes : ∀ b ∈ a, b < 256) :
    beBytesToNat a < 2 ^ 160 ∧
    (∃ arr, scalar2fea (beBytesToNat a : Int) 160 = .ok arr) ∧
    (∀ (f : List Nat → List Nat → Except Nat (List Nat)) (t : Nat) (c : List Nat)
      (e : EncodingError), keyEthAddrRun f a t c ≠ .error (.encoding e)) ∧
    (∀ (f : List Nat → List Nat → Except Nat (List Nat)) (e : EncodingError),
      KeyEthAddrBalanceRun f a ≠ .error (.encoding e) ∧
      KeyEthAddrNonceRun f a ≠ .error (.encoding e) ∧
      KeyContractCodeRun f a ≠ .error (.encoding e)) ∧
    (∀ (f : List Nat → List Nat → Except Nat (List Nat)) (p : List Nat)
      (e : EncodingError), beBytesToNat p < 2 ^ 256 →
      KeyContractStorageRun f a p ≠ .error (.encoding e)) := by
  have hbound : beBytesToNat a < 2 ^ 160 := by
    have hlt := beBytesToNat_lt a hbytes
    rw [hlen] at hlt
    have h2 : (256 : Nat) ^ 20 = 2 ^ 160 := by norm_num
    rw [h2] at hlt
    exact hlt
  have hok := scalar2fea_nat_ok (beBytesToNat a) 5 hbound
  have hcore : ∀ (f : List Nat → List Nat → Except Nat (List Nat)) (t : Nat) (c : List Nat)
      (e : EncodingError), keyEthAddrRun f a t c ≠ .error (.encoding e) := by
    intro f t c e h
    rw [keyEthAddrRun_eq] at h
    simp only [hok] at h
    cases hf : f [((List.range 5).map
          (fun i => beBytesToNat a / 2 ^ (32 * i) % 2 ^ 32) ++ List.replicate 3 0).getD 0 0,
        ((List.range 5).map (fun i => beBytesToNat a / 2 ^ (32 * i) % 2 ^ 32) ++
          List.replicate 3 0).getD 1 0,
        ((List.range 5).map (fun i => beBytesToNat a / 2 ^ (32 * i) % 2 ^ 32) ++
          List.replicate 3 0).getD 2 0,
        ((List.range 5).map (fun i => beBytesToNat a / 2 ^ (32 * i) % 2 ^ 32) ++
          List.replicate 3 0).getD 3 0,
        ((List.range 5).map (fun i => beBytesToNat a / 2 ^ (32 * i) % 2 ^ 32) ++
          List.replicate 3 0).getD 4 0, 0, t, 0] c <;>
      simp only [hf] at h <;> simp at h
  refine ⟨hbound, ⟨_, hok⟩, hcore, ?_, ?_⟩
  · intro f e
    rw [KeyEthAddrBalanceRun_eq, KeyEthAddrNonceRun_eq, KeyContractCodeRun_eq]
    exact ⟨hcore f leafTypeBalance defaultCapVal e, hcore f leafTypeNonce defaultCapVal e,
      hcore f leafTypeCode defaultCapVal e⟩
  · intro f p e hp h
    rw [KeyContractStorageRun_eq] at h
    have hpok := scalar2fea_nat_ok (beBytesToNat p) 8 hp
    simp only [hpok] at h
    cases hf : f [((List.range 8).map
          (fun i => beBytesToNat p / 2 ^ (32 * i) % 2 ^ 32) ++ List.replicate 0 0).getD 0 0,
        ((List.range 8).map (fun i => beBytesToNat p / 2 ^ (32 * i) % 2 ^ 32) ++
          List.replicate 0 0).getD 1 0,
        ((List.range 8).map (fun i => beBytesToNat p / 2 ^ (32 * i) % 2 ^ 32) ++
          List.replicate 0 0).getD 2 0,
        ((List.range 8).map (fun i => beBytesToNat p / 2 ^ (32 * i) % 2 ^ 32) ++
          List.replicate 0 0).getD 3 0,
        ((List.range 8).map (fun i => beBytesToNat p / 2 ^ (32 * i) % 2 ^ 32) ++
          List.replicate 0 0).getD 4 0,
        ((List.range 8).map (fun i => beBytesToNat p / 2 ^ (32 * i) % 2 ^ 32) ++
          List.replicate 0 0).getD 5 0,
        ((List.range 8).map (fun i => beBytesToNat p / 2 ^ (32 * i) % 2 ^ 32) ++
          List.replicate 0 0).getD 6 0,
        ((List.range 8).map (fun i => beBytesToNat p / 2 ^ (32 * i) % 2 ^ 32) ++
          List.replicate 0 0).getD 7 0] [0, 0, 0, 0] with
    | error err => simp only [hf] at h; simp at h
    | ok hk0 => simp only [hf] at h; exact hcore f leafTypeStorage hk0 e h

theorem C10_witness :
    beBytesToNat (List.replicate 20 0) < 2 ^ 160 ∧
    (∃ arr, scalar2fea (beBytesToNat (List.replicate 20 0) : Int) 160 = .ok arr) ∧
    (∀ (f : List Nat → List Nat → Except Nat (List Nat)) (t : Nat) (c : List Nat)
      (e : EncodingError),
      keyEthAddrRun f (List.replicate 20 0) t c ≠ .error (.encoding e)) ∧
    (∀ (f : List Nat → List Nat → Except Nat (List Nat)) (e : EncodingError),
      KeyEthAddrBalanceRun f (List.replicate 20 0) ≠ .error (.encoding e) ∧
      KeyEthAddrNonceRun f (List.replicate 20 0) ≠ .error (.encoding e) ∧
      KeyContractCodeRun f (List.replicate 20 0) ≠ .error (.encoding e)) ∧
    (∀ (f : List Nat → List Nat → Except Nat (List Nat)) (p : List Nat)
      (e : EncodingError), beBytesToNat p < 2 ^ 256 →
      KeyContractStorageRun f (List.replicate 20 0) p ≠ .error (.encoding e)) :=
  C10_address_encoding_never_fails (List.replicate 20 0) (by decide) (by decide)
